import Mathlib

/-!
Shallow embedding of the network-resilience layer of the form-watcher
repository: rate limiter, circuit breaker, retry policy, request
deduplicator, cache, and the content fetcher's per-attempt error
handling.  Each definition is translated from the TypeScript source;
timestamps and JS numbers are modelled as `Int`, JS `Map`s as
association lists over `String` keys, and promises as identifiers
resolved in an explicit store.
-/

namespace FormWatcher

/-- Decidable equality of settled results. -/
instance {E T : Type} [DecidableEq E] [DecidableEq T] :
    DecidableEq (Except E T) := fun a b =>
  match a, b with
  | .ok x, .ok y =>
      if h : x = y then .isTrue (by simp [h]) else .isFalse (by simp [h])
  | .error x, .error y =>
      if h : x = y then .isTrue (by simp [h]) else .isFalse (by simp [h])
  | .ok _, .error _ => .isFalse (by simp)
  | .error _, .ok _ => .isFalse (by simp)

/-- Lookup in an association list, mirroring `Map.get` of a JS `Map`
keyed by strings (keys are unique in a JS `Map`). -/
def mapLookup {α : Type} (m : List (String × α)) (k : String) : Option α :=
  match m with
  | [] => none
  | (k', v) :: rest => if k' = k then some v else mapLookup rest k

/-- Insert or replace in an association list, mirroring `Map.set`:
an existing key keeps its position, a new key is appended. -/
def mapInsert {α : Type} (m : List (String × α)) (k : String) (v : α) :
    List (String × α) :=
  match m with
  | [] => [(k, v)]
  | (k', v') :: rest =>
      if k' = k then (k, v) :: rest else (k', v') :: mapInsert rest k v

/-- Remove a key from an association list, mirroring `Map.delete`. -/
def mapErase {α : Type} (m : List (String × α)) (k : String) :
    List (String × α) :=
  match m with
  | [] => []
  | (k', v') :: rest => if k' = k then rest else (k', v') :: mapErase rest k

/-- `Math.ceil (a / b)` for integer `a` and positive integer `b`,
as computed by JS on exact integer inputs. -/
def mathCeilDiv (a b : Int) : Int := -(Int.ediv (-a) b)

/-- JS truthiness of a nullable number (`null`, `undefined` and `0`
are falsy). -/
def jsTruthy (x : Option Int) : Bool :=
  match x with
  | none => false
  | some t => t ≠ 0

/-- `x || 0` on a nullable number. -/
def orZero (x : Option Int) : Int :=
  match x with
  | none => 0
  | some t => t

/-! ## RateLimiter (rate-limiter source, `RateLimiter` class) -/

/-- Per-key window state of the rate limiter (`RateLimitState`). -/
structure RateLimitState where
  count : Int
  resetTime : Int
  deriving Repr, DecidableEq

/-- Resolved rate-limiter options (`InternalRateLimitOptions`). -/
structure RateLimitOptions where
  maxRequests : Int
  timeWindow : Int
  throwOnLimit : Bool
  deriving Repr, DecidableEq

/-- Result of `RateLimiter.isAllowed`. -/
structure IsAllowedResult where
  allowed : Bool
  remaining : Int
  resetTime : Int
  retryAfter : Option Int
  deriving Repr, DecidableEq

abbrev RLMap := List (String × RateLimitState)

/-- `RateLimiter.isAllowed(key)`: reads the key's window state (or a
fresh default `{count: 0, resetTime: now + timeWindow}`), resets the
window in place when `now > resetTime` (the in-place mutation is
visible in the map only when the state object came from the map), and
always returns `allowed: true` with
`remaining = max(0, maxRequests - count)`.  Returns the result
together with the state map after the call. -/
def RateLimiter.isAllowed (opts : RateLimitOptions) (m : RLMap)
    (key : String) (now : Int) : IsAllowedResult × RLMap :=
  match mapLookup m key with
  | none =>
      let st : RateLimitState := ⟨0, now + opts.timeWindow⟩
      let st := if now > st.resetTime then
          ({ count := 0, resetTime := now + opts.timeWindow } : RateLimitState)
        else st
      (⟨true, max 0 (opts.maxRequests - st.count), st.resetTime, some 0⟩, m)
  | some st =>
      if now > st.resetTime then
        let st' : RateLimitState := ⟨0, now + opts.timeWindow⟩
        (⟨true, max 0 (opts.maxRequests - st'.count), st'.resetTime, some 0⟩,
          mapInsert m key st')
      else
        (⟨true, max 0 (opts.maxRequests - st.count), st.resetTime, some 0⟩, m)

/-- The key's request count as `isAllowed` sees it after the window
check: 0 when no state is stored or the window has expired, else the
stored count. -/
def RateLimiter.windowedCount (m : RLMap) (key : String) (now : Int) : Int :=
  match mapLookup m key with
  | none => 0
  | some st => if now > st.resetTime then 0 else st.count

/-- Outcome of one operation passed to `RateLimiter.execute`: either a
value, or an error that may be a `RateLimitError` carrying a nullable
`retryAfter` (seconds). -/
inductive RLOp (T : Type) where
  | ok (t : T)
  | err (isRateLimitError : Bool) (retryAfter : Option Int)
  deriving Repr, DecidableEq

/-- Outcome of `RateLimiter.execute` as seen by the caller. -/
inductive RLOutcome (T : Type) where
  | value (t : T)
  | opError (isRateLimitError : Bool) (retryAfter : Option Int)
  | rejectedRateLimited (retryAfter : Option Int)
  | rejectedGeneric
  deriving Repr, DecidableEq

/-- `RateLimiter.execute(key, fn)`: consults `isAllowed`; when not
allowed it throws without invoking `fn`; otherwise invokes `fn`,
propagating its outcome and, when `fn` failed with a `RateLimitError`
whose `retryAfter` is truthy, recording
`{count: maxRequests, resetTime: now + retryAfter*1000}` for the key.
Returns (outcome, state map after the call, whether `fn` was
invoked). -/
def RateLimiter.execute {T : Type} (opts : RateLimitOptions) (m : RLMap)
    (key : String) (now : Int) (op : RLOp T) : RLOutcome T × RLMap × Bool :=
  let res := RateLimiter.isAllowed opts m key now
  let m1 := res.2
  if res.1.allowed = false then
    if opts.throwOnLimit then (.rejectedRateLimited res.1.retryAfter, m1, false)
    else (.rejectedGeneric, m1, false)
  else
    match op with
    | .ok t => (.value t, m1, true)
    | .err isRLE ra =>
        if isRLE ∧ jsTruthy ra then
          let _st := (mapLookup m1 key).getD (⟨0, 0⟩ : RateLimitState)
          let st' : RateLimitState :=
            { count := opts.maxRequests, resetTime := now + orZero ra * 1000 }
          (.opError isRLE ra, mapInsert m1 key st', true)
        else
          (.opError isRLE ra, m1, true)

/-- `RateLimiter.getState(key)`. -/
def RateLimiter.getState (m : RLMap) (key : String) : Option RateLimitState :=
  mapLookup m key

/-! ## CircuitBreaker (circuit-breaker source, `CircuitBreaker` class) -/

/-- Per-key circuit state (`CircuitState`). -/
structure CircuitState where
  failures : Nat
  lastFailureTime : Option Int
  isOpen : Bool
  successCount : Nat
  deriving Repr, DecidableEq

/-- Resolved circuit-breaker options. -/
structure CircuitBreakerOptions where
  timeoutMs : Int
  failureThreshold : Nat
  successThreshold : Nat
  deriving Repr, DecidableEq

abbrev CBMap := List (String × CircuitState)

/-- `CircuitBreaker.getState(key)`: the stored state, or the closed
default `{failures: 0, lastFailureTime: null, isOpen: false,
successCount: 0}`. -/
def CircuitBreaker.getState (m : CBMap) (key : String) : CircuitState :=
  (mapLookup m key).getD ⟨0, none, false, 0⟩

/-- Caller-visible outcome of `CircuitBreaker.execute`. -/
inductive CBOutcome where
  | rejected (retryAfter : Int)
  | succeeded
  | failed
  deriving Repr, DecidableEq

/-- `CircuitBreaker.execute(key, operation)`, with the operation's
behaviour abstracted to whether it succeeds.  On entry, when the
circuit is open: if `lastFailureTime` is truthy and
`now - lastFailureTime > timeoutMs`, the circuit is half-closed
(`isOpen := false`, `successCount := 0`) and the call proceeds; else
the call is rejected with a service-unavailable signal carrying
`retryAfter = ceil((timeoutMs - (now - (lastFailureTime || 0))) / 1000)`
seconds and the operation is not invoked.  A success increments
`successCount`, resetting to the fully closed state at
`successThreshold`; a failure increments `failures`, records
`lastFailureTime := now`, clears `successCount` and opens the circuit
at `failureThreshold`.  Returns (outcome, state map after the call,
whether the operation was invoked). -/
def CircuitBreaker.execute (opts : CircuitBreakerOptions) (m : CBMap)
    (key : String) (now : Int) (opSucceeds : Bool) : CBOutcome × CBMap × Bool :=
  let state := CircuitBreaker.getState m key
  let gate : Option CBMap :=
    if state.isOpen then
      if jsTruthy state.lastFailureTime ∧
          now - orZero state.lastFailureTime > opts.timeoutMs then
        some (mapInsert m key { state with isOpen := false, successCount := 0 })
      else none
    else some m
  match gate with
  | none =>
      let retryAfter :=
        mathCeilDiv (opts.timeoutMs - (now - orZero state.lastFailureTime)) 1000
      (.rejected retryAfter, m, false)
  | some m1 =>
      if opSucceeds then
        let cur := CircuitBreaker.getState m1 key
        let successCount := cur.successCount + 1
        if successCount ≥ opts.successThreshold then
          (.succeeded, mapInsert m1 key ⟨0, none, false, 0⟩, true)
        else
          (.succeeded, mapInsert m1 key { cur with successCount }, true)
      else
        let cur := CircuitBreaker.getState m1 key
        let failures := cur.failures + 1
        let isOpen := failures ≥ opts.failureThreshold
        (.failed, mapInsert m1 key ⟨failures, some now, isOpen, 0⟩, true)

/-- Run `CircuitBreaker.execute` over a list of (time, opSucceeds)
calls, returning for each call its outcome paired with whether the
operation was invoked, plus the final state map. -/
def CircuitBreaker.run (opts : CircuitBreakerOptions) (m : CBMap)
    (key : String) (calls : List (Int × Bool)) :
    List (CBOutcome × Bool) × CBMap :=
  match calls with
  | [] => ([], m)
  | (now, opSucceeds) :: rest =>
      let step := CircuitBreaker.execute opts m key now opSucceeds
      let tail := CircuitBreaker.run opts step.2.1 key rest
      ((step.1, step.2.2) :: tail.1, tail.2)

/-! ## Cache (infrastructure/cache, `Cache` class) -/

/-- A cache entry (`CacheItem`). -/
structure CacheItem (T : Type) where
  value : T
  expiresAt : Int
  lastAccess : Int
  isFetching : Bool
  deriving Repr, DecidableEq

/-- Resolved cache options relevant to the store's behaviour. -/
structure CacheOptions where
  ttl : Int
  maxSize : Nat
  staleWhileRevalidate : Bool
  deriving Repr, DecidableEq

abbrev CacheStore (T : Type) := List (String × CacheItem T)

/-- `Cache.set(key, value, ttl?)`: stores
`{value, expiresAt: now + (ttl ?? options.ttl), lastAccess: now,
isFetching: false}`. -/
def Cache.set {T : Type} (opts : CacheOptions) (s : CacheStore T)
    (key : String) (value : T) (ttl : Option Int) (now : Int) : CacheStore T :=
  mapInsert s key ⟨value, now + ttl.getD opts.ttl, now, false⟩

/-- `Cache.get(key)`: absent when no entry; an expired entry is
deleted and reported absent unless stale-while-revalidate applies, in
which case the stale value is returned once with `isFetching := true`;
an unexpired entry has its `lastAccess` refreshed and its value
returned.  Returns the value together with the store after the
call. -/
def Cache.get {T : Type} (opts : CacheOptions) (s : CacheStore T)
    (key : String) (now : Int) : Option T × CacheStore T :=
  match mapLookup s key with
  | none => (none, s)
  | some item =>
      if item.expiresAt ≤ now then
        if !opts.staleWhileRevalidate || item.isFetching then
          (none, mapErase s key)
        else
          (some item.value, mapInsert s key { item with isFetching := true })
      else
        (some item.value, mapInsert s key { item with lastAccess := now })

/-- Result of `Cache.compareAndSet`. -/
inductive CasResult where
  | initial
  | changed
  | unchanged
  deriving Repr, DecidableEq

/-- `Cache.compareAndSet(key, newValue)`: reads the current value via
`get`, writes `newValue` via `set` (default ttl) over the store `get`
left behind, and classifies the comparison.  `serialize` stands for
`JSON.stringify`. -/
def Cache.compareAndSet {T : Type} (opts : CacheOptions)
    (serialize : T → String) (s : CacheStore T) (key : String) (newValue : T)
    (now : Int) : CasResult × CacheStore T :=
  match (Cache.get opts s key now).1 with
  | none =>
      (.initial, Cache.set opts (Cache.get opts s key now).2 key newValue none now)
  | some prev =>
      if serialize prev = serialize newValue then
        (.unchanged, Cache.set opts (Cache.get opts s key now).2 key newValue none now)
      else
        (.changed, Cache.set opts (Cache.get opts s key now).2 key newValue none now)

/-- The LRU eviction loop of `Cache.cleanup`: while the store is over
`maxSize` and sorted entries remain, delete the next entry's key. -/
def Cache.evictLoop {T : Type} (store : CacheStore T)
    (entries : List (String × CacheItem T)) (maxSize : Nat) : CacheStore T :=
  match entries with
  | [] => store
  | (k, _) :: rest =>
      if store.length > maxSize then
        Cache.evictLoop (mapErase store k) rest maxSize
      else store

/-- The comparison `(a, b) => a.lastAccess - b.lastAccess` used by
`Cache.cleanup` to sort entries ascending by last access. -/
def Cache.byLastAccess {T : Type} (a b : String × CacheItem T) : Prop :=
  a.2.lastAccess ≤ b.2.lastAccess

instance {T : Type} : DecidableRel (Cache.byLastAccess (T := T)) :=
  fun a b => inferInstanceAs (Decidable (a.2.lastAccess ≤ b.2.lastAccess))

instance {T : Type} : IsTotal (String × CacheItem T) Cache.byLastAccess :=
  ⟨fun a b => Int.le_total a.2.lastAccess b.2.lastAccess⟩

instance {T : Type} : IsTrans (String × CacheItem T) Cache.byLastAccess :=
  ⟨fun _ _ _ hab hbc => Int.le_trans hab hbc⟩

/-- `Cache.cleanup()`: first delete every entry with
`expiresAt ≤ now`; if the store is still over `maxSize`, evict
entries in ascending `lastAccess` order (stable sort, matching JS
`Array.sort` on a numeric comparator) until at capacity. -/
def Cache.cleanup {T : Type} (opts : CacheOptions) (s : CacheStore T)
    (now : Int) : CacheStore T :=
  let s1 := s.filter (fun kv => ! decide (kv.2.expiresAt ≤ now))
  if s1.length > opts.maxSize then
    Cache.evictLoop s1 (s1.insertionSort Cache.byLastAccess) opts.maxSize
  else s1

/-! ## RetryPolicy (`retryOperation`) -/

/-- The payload of the *operation-exhausted* signal
(`InternalServerError` details `{maxRetries, baseDelayMs, lastError}`
wrapping the last error as its cause). -/
structure RetryExhausted (E : Type) where
  maxRetries : Nat
  baseDelayMs : ℚ
  lastError : Option E
  deriving Repr, DecidableEq

/-- Observable trace of one `retryOperation` call: the settled result,
how many times the operation was invoked, and the waits performed
between attempts, in order. -/
structure RetryRun (E T : Type) where
  result : Except (RetryExhausted E) T
  invocations : Nat
  waits : List ℚ
  deriving Repr, DecidableEq

/-- The `for (attempt = 0; attempt < maxRetries; attempt++)` loop of
`retryOperation`; `fuel = maxRetries - attempt` iterations remain.
On failure at `attempt`, the delay `baseDelayMs * 2^attempt * jitter`
is awaited only when `attempt < maxRetries - 1`. -/
def retryLoop {E T : Type} (op : Nat → Except E T) (maxRetries : Nat)
    (baseDelayMs : ℚ) (jitter : Nat → ℚ) (attempt : Nat) (fuel : Nat)
    (lastError : Option E) (waits : List ℚ) : RetryRun E T :=
  match fuel with
  | 0 => ⟨.error ⟨maxRetries, baseDelayMs, lastError⟩, attempt, waits⟩
  | f + 1 =>
      match op attempt with
      | .ok t => ⟨.ok t, attempt + 1, waits⟩
      | .error e =>
          let delay := baseDelayMs * 2 ^ attempt * jitter attempt
          let waits' := if attempt < maxRetries - 1 then waits ++ [delay] else waits
          retryLoop op maxRetries baseDelayMs jitter (attempt + 1) f (some e) waits'

/-- `retryOperation(operation, maxRetries, baseDelayMs)`: the
operation's outcome on attempt `i` is `op i`; `jitter i` is the
jitter factor drawn on attempt `i`. -/
def retryOperation {E T : Type} (op : Nat → Except E T) (maxRetries : Nat)
    (baseDelayMs : ℚ) (jitter : Nat → ℚ) : RetryRun E T :=
  retryLoop op maxRetries baseDelayMs jitter 0 maxRetries none []

/-- The jitter factor `1 + Math.random() * 0.1` with
`random i ∈ [0, 1)` the value drawn on attempt `i`. -/
def jitterOf (random : Nat → ℚ) (i : Nat) : ℚ :=
  1 + random i * (1 / 10)

/-! ## RequestDeduplicator (request-deduplicator.api-client) -/

/-- A pending in-flight request (`PendingRequest`): the shared promise
(modelled by an identifier into an explicit promise store) and its
creation time. -/
structure PendingRequest where
  promiseId : Nat
  timestamp : Int
  deriving Repr, DecidableEq

abbrev DedupMap := List (String × PendingRequest)

/-- What the entry phase of `RequestDeduplicator.execute` did:
returned an existing shared promise, or registered a fresh one and
started the operation. -/
inductive DedupBegin where
  | shared (promiseId : Nat)
  | started (promiseId : Nat)
  deriving Repr, DecidableEq

/-- The synchronous entry phase of `RequestDeduplicator.execute(key,
fn)` (everything before `fn` is awaited): if a pending entry exists
its promise is returned and the map is untouched, otherwise a fresh
promise is registered under `key` and the operation is invoked. -/
def RequestDeduplicator.enter (m : DedupMap) (key : String) (now : Int)
    (freshId : Nat) : DedupBegin × DedupMap :=
  match mapLookup m key with
  | some p => (.shared p.promiseId, m)
  | none => (.started freshId, mapInsert m key ⟨freshId, now⟩)

/-- The settlement phase of `RequestDeduplicator.execute`: when the
invoked operation settles with `r`, the shared promise is resolved or
rejected with `r`, the `finally` block deletes the pending entry, and
only then does `r` propagate to the original caller.  Returns (map
after settlement, promise store after settlement, the propagated
result). -/
def RequestDeduplicator.settle {E T : Type} (m : DedupMap) (key : String)
    (pid : Nat) (r : Except E T) (promises : Nat → Option (Except E T)) :
    DedupMap × (Nat → Option (Except E T)) × Except E T :=
  (mapErase m key, fun i => if i = pid then some r else promises i, r)

/-- Observable outcome of the two-overlapping-calls scenario. -/
structure DedupScenario (E T : Type) where
  invocations : Nat
  resultA : Except E T
  resultB : Option (Except E T)
  finalMap : DedupMap
  thirdCall : DedupBegin

/-- The §8 deduplication scenario on the event-loop interleaving:
caller A enters at `tA` on an empty map, caller B enters at `tB`
before A's operation settles, the operation settles with `r`
(promises start unresolved), B reads the shared promise, and a third
caller enters after settlement. -/
def RequestDeduplicator.overlapScenario {E T : Type} (tA tB : Int)
    (r : Except E T) : DedupScenario E T :=
  let e1 := RequestDeduplicator.enter [] "k" tA 0
  let e2 := RequestDeduplicator.enter e1.2 "k" tB 1
  let inv1 : Nat := match e1.1 with | .started _ => 1 | .shared _ => 0
  let inv2 : Nat := match e2.1 with | .started _ => 1 | .shared _ => 0
  let fin := RequestDeduplicator.settle e2.2 "k" 0 r (fun _ => none)
  let rB : Option (Except E T) :=
    match e2.1 with
    | .shared pid => fin.2.1 pid
    | .started pid => fin.2.1 pid
  let e3 := RequestDeduplicator.enter fin.1 "k" (tB + 1) 2
  ⟨inv1 + inv2, fin.2.2, rB, fin.1, e3.1⟩

/-! ## Fetch attempt error handling (ContentFetcher and HttpClient) -/

/-- The error taxonomy relevant to one fetch attempt: the typed
signals from the custom error classes, plus the raw `AbortError` a
timed-out `node-fetch` call rejects with. -/
inductive AppSignal where
  | network (status : Option Nat)
  | rateLimited (retryAfter : Option Int)
  | validation
  | timeout
  | aborted
  deriving Repr, DecidableEq

/-- What one network attempt produced: a response with its `ok` flag,
status, body and nullable `retry-after` header, or an abort fired by
the attempt's deadline. -/
inductive AttemptEvent (C : Type) where
  | response (ok : Bool) (status : Nat) (body : C) (retryAfterHeader : Option Int)
  | aborted
  deriving Repr, DecidableEq

/-- Per-attempt handling in `ContentFetcher.fetch` (`fetchWithRetry`):
a non-`ok` response throws `NetworkError('Failed to fetch content',
url, res.status, ...)` regardless of the status value, and an aborted
attempt rethrows the abort error unchanged. -/
def ContentFetcher.attemptResult {C : Type} (ev : AttemptEvent C) :
    Except AppSignal C :=
  match ev with
  | .response ok status body _ =>
      if ok then .ok body else .error (.network (some status))
  | .aborted => .error .aborted

/-- Status classification in `HttpClient.request`: 429 throws
`RateLimitError` carrying the parsed `retry-after` header, ≥ 500
throws `NetworkError`, other ≥ 400 throws `ValidationError`, any
other non-`ok` status throws `NetworkError`. -/
def HttpClient.classifyStatus (status : Nat) (retryAfterHeader : Option Int) :
    AppSignal :=
  if status = 429 then .rateLimited retryAfterHeader
  else if 500 ≤ status then .network (some status)
  else if 400 ≤ status then .validation
  else .network (some status)

/-- Per-attempt handling in `HttpClient.request`: non-`ok` responses
are classified by status, and an aborted attempt is reported as a
`TimeoutError`. -/
def HttpClient.attemptResult {C : Type} (ev : AttemptEvent C) :
    Except AppSignal C :=
  match ev with
  | .response ok status body ra =>
      if ok then .ok body else .error (HttpClient.classifyStatus status ra)
  | .aborted => .error .timeout

/-- Whether an attempt outcome is a failure with a *rate-limited*
signal. -/
def isRateLimitedError {C : Type} (r : Except AppSignal C) : Bool :=
  match r with
  | .error (.rateLimited _) => true
  | _ => false

/-- A JS `Map` invariant: the association list has no duplicate
keys. -/
def keysNodup {α : Type} (m : List (String × α)) : Prop :=
  (m.map Prod.fst).Nodup

/-! ## Association-list lemmas -/

theorem mapLookup_mapInsert_self {α : Type} (m : List (String × α))
    (k : String) (v : α) : mapLookup (mapInsert m k v) k = some v := by
  induction m with
  | nil => simp [mapInsert, mapLookup]
  | cons hd tl ih =>
      by_cases h : hd.1 = k
      · simp [mapInsert, mapLookup, h]
      · simp [mapInsert, mapLookup, h, ih]

theorem mapLookup_mapInsert_ne {α : Type} (m : List (String × α))
    (k k' : String) (v : α) (h : k' ≠ k) :
    mapLookup (mapInsert m k v) k' = mapLookup m k' := by
  have hks : ¬(k = k') := fun hh => h (Eq.symm hh)
  induction m with
  | nil => simp [mapInsert, mapLookup, hks]
  | cons hd tl ih =>
      by_cases hh : hd.1 = k
      · simp [mapInsert, mapLookup, hh, hks]
      · simp [mapInsert, mapLookup, hh, ih]

theorem mapErase_sublist {α : Type} (m : List (String × α)) (k : String) :
    (mapErase m k).Sublist m := by
  induction m with
  | nil => simp [mapErase]
  | cons hd tl ih =>
      by_cases h : hd.1 = k
      · simp [mapErase, h]
      · simpa [mapErase, h] using ih.cons₂ hd

theorem mapErase_subset {α : Type} (m : List (String × α)) (k : String) :
    ∀ x ∈ mapErase m k, x ∈ m :=
  fun _ hx => (mapErase_sublist m k).subset hx

theorem keysNodup_mapErase {α : Type} (m : List (String × α)) (k : String)
    (h : keysNodup m) : keysNodup (mapErase m k) :=
  (((mapErase_sublist m k).map Prod.fst).nodup h : _)

theorem keys_mapInsert {α : Type} (m : List (String × α)) (k : String)
    (v : α) :
    (mapInsert m k v).map Prod.fst =
      if k ∈ m.map Prod.fst then m.map Prod.fst
      else m.map Prod.fst ++ [k] := by
  induction m with
  | nil => simp [mapInsert]
  | cons hd tl ih =>
      by_cases hh : hd.1 = k
      · simp [mapInsert, hh]
      · have hne : ¬(k = hd.1) := fun he => hh (Eq.symm he)
        by_cases hm : k ∈ tl.map Prod.fst
        · simp [mapInsert, hh, hm, hne, ih]
        · simp [mapInsert, hh, hm, hne, ih]

theorem keysNodup_mapInsert {α : Type} (m : List (String × α)) (k : String)
    (v : α) (h : keysNodup m) : keysNodup (mapInsert m k v) := by
  unfold keysNodup at h ⊢
  rw [keys_mapInsert]
  by_cases hm : k ∈ m.map Prod.fst
  · simpa [hm] using h
  · simp only [hm, if_neg, ite_false]
    rw [List.nodup_append]
    refine ⟨h, List.nodup_singleton k, ?_⟩
    intro a ha hb
    rw [List.mem_singleton] at hb
    rw [hb] at ha
    exact hm ha

theorem mem_mapErase_of_ne {α : Type} (m : List (String × α)) (k : String)
    (x : String × α) (hx : x ∈ m) (hne : x.1 ≠ k) : x ∈ mapErase m k := by
  induction m with
  | nil => simp at hx
  | cons hd tl ih =>
      by_cases h : hd.1 = k
      · simp only [mapErase, if_pos h]
        rcases List.mem_cons.1 hx with hx' | hx'
        · exact absurd (hx' ▸ h) hne
        · exact hx'
      · simp only [mapErase, if_neg h]
        rcases List.mem_cons.1 hx with hx' | hx'
        · exact hx' ▸ List.mem_cons_self _ _
        · exact List.mem_cons_of_mem _ (ih hx')

theorem key_eq_of_not_mem_mapErase {α : Type} (m : List (String × α))
    (k : String) (x : String × α) (hx : x ∈ m) (hnx : x ∉ mapErase m k) :
    x.1 = k := by
  by_contra hne
  exact hnx (mem_mapErase_of_ne m k x hx hne)

theorem mapErase_length_of_mem {α : Type} (m : List (String × α)) (k : String)
    (v : α) (h : (k, v) ∈ m) :
    (mapErase m k).length = m.length - 1 := by
  induction m with
  | nil => simp at h
  | cons hd tl ih =>
      by_cases hh : hd.1 = k
      · simp [mapErase, hh]
      · rcases List.mem_cons.1 h with h' | h'
        · exact absurd (by rw [← h']) hh
        · have hpos : 0 < tl.length := List.length_pos.2 (by
            intro hnil
            rw [hnil] at h'
            simp at h')
          simp only [mapErase, if_neg hh, List.length_cons, ih h']
          omega

theorem not_mem_mapErase_self {α : Type} (m : List (String × α)) (k : String)
    (x : String × α) (hnd : keysNodup m) (hx : x ∈ m) (hk : x.1 = k) :
    x ∉ mapErase m k := by
  induction m with
  | nil => simp at hx
  | cons hd tl ih =>
      unfold keysNodup at hnd
      simp only [List.map_cons, List.nodup_cons] at hnd
      by_cases hh : hd.1 = k
      · simp only [mapErase, if_pos hh]
        intro hmem
        have : x.1 ∈ tl.map Prod.fst := List.mem_map_of_mem Prod.fst hmem
        rw [hk, ← hh] at this
        exact hnd.1 this
      · simp only [mapErase, if_neg hh]
        intro hmem
        rcases List.mem_cons.1 hmem with h' | h'
        · rw [h'] at hk
          exact hh hk
        · rcases List.mem_cons.1 hx with h'' | h''
          · rw [h''] at hk
            exact hh hk
          · exact ih hnd.2 h'' h'

theorem mem_of_mapLookup_eq_some {α : Type} (m : List (String × α))
    (k : String) (v : α) (h : mapLookup m k = some v) : (k, v) ∈ m := by
  induction m with
  | nil => simp [mapLookup] at h
  | cons hd tl ih =>
      by_cases hh : hd.1 = k
      · simp only [mapLookup, if_pos hh] at h
        have : (k, v) = hd := by
          rw [← hh]
          exact Prod.ext rfl (Option.some.inj h).symm
        rw [this]
        exact List.mem_cons_self _ _
      · simp only [mapLookup, if_neg hh] at h
        exact List.mem_cons_of_mem _ (ih h)

theorem mapLookup_mapErase_self {α : Type} (m : List (String × α))
    (k : String) (hnd : keysNodup m) : mapLookup (mapErase m k) k = none := by
  cases hlk : mapLookup (mapErase m k) k with
  | none => rfl
  | some v =>
      have hmem : (k, v) ∈ mapErase m k := mem_of_mapLookup_eq_some _ _ _ hlk
      have hm : (k, v) ∈ m := mapErase_subset m k _ hmem
      exact absurd hmem (not_mem_mapErase_self m k (k, v) hnd hm rfl)

/-! ## RateLimiter lemmas -/

theorem rl_isAllowed_allowed (opts : RateLimitOptions) (m : RLMap)
    (key : String) (now : Int) :
    (RateLimiter.isAllowed opts m key now).1.allowed = true := by
  unfold RateLimiter.isAllowed
  cases mapLookup m key with
  | none => simp
  | some st =>
      by_cases hw : now > st.resetTime
      · simp [hw]
      · simp [hw]

theorem rl_isAllowed_remaining (opts : RateLimitOptions) (m : RLMap)
    (key : String) (now : Int) :
    (RateLimiter.isAllowed opts m key now).1.remaining
      = max 0 (opts.maxRequests - RateLimiter.windowedCount m key now) := by
  unfold RateLimiter.isAllowed RateLimiter.windowedCount
  cases mapLookup m key with
  | none => simp
  | some st =>
      by_cases hw : now > st.resetTime
      · simp [hw]
      · simp [hw]

/-- C2: `RateLimiter.isAllowed` always reports `allowed` with
`remaining = max(0, maxRequests − count)` (count after the window
check), the admission check never increments the effective window
counter, and `RateLimiter.execute` therefore always proceeds to
invoke its function and propagates the function's own outcome — it
never rejects a caller for being over limit. -/
theorem rateLimiter_never_throttles {T : Type} (opts : RateLimitOptions)
    (m : RLMap) (key : String) (now : Int) (op : RLOp T) :
    (RateLimiter.isAllowed opts m key now).1.allowed = true ∧
    (RateLimiter.isAllowed opts m key now).1.remaining
      = max 0 (opts.maxRequests - RateLimiter.windowedCount m key now) ∧
    RateLimiter.windowedCount (RateLimiter.isAllowed opts m key now).2 key now
      = RateLimiter.windowedCount m key now ∧
    (RateLimiter.execute opts m key now op).2.2 = true ∧
    (RateLimiter.execute opts m key now op).1
      = (match op with
         | .ok t => .value t
         | .err b ra => .opError b ra) := by
  refine ⟨rl_isAllowed_allowed opts m key now,
    rl_isAllowed_remaining opts m key now, ?_, ?_, ?_⟩
  · unfold RateLimiter.isAllowed RateLimiter.windowedCount
    cases hlk : mapLookup m key with
    | none => simp [hlk]
    | some st =>
        by_cases hw : now > st.resetTime
        · simp [hlk, hw, mapLookup_mapInsert_self]
        · simp [hlk, hw]
  · unfold RateLimiter.execute
    simp only [rl_isAllowed_allowed]
    cases op with
    | ok t => simp
    | err b ra =>
        by_cases hb : (b : Prop) ∧ jsTruthy ra
        · simp [hb]
        · simp [hb]
  · unfold RateLimiter.execute
    simp only [rl_isAllowed_allowed]
    cases op with
    | ok t => simp
    | err b ra =>
        by_cases hb : (b : Prop) ∧ jsTruthy ra
        · simp [hb]
        · simp [hb]

/-- C10 counterexample: with key "k" holding state `{count: 5,
resetTime: 10}` and the clock at 11 (window expired), a single
`isAllowed("k")` call changes what `getState("k")` returns — the
in-place window reset mutates the stored state. -/
theorem rateLimiter_isAllowed_mutates_state :
    RateLimiter.getState [("k", (⟨5, 10⟩ : RateLimitState))] "k"
      = some ⟨5, 10⟩ ∧
    RateLimiter.getState
        (RateLimiter.isAllowed ⟨100, 60000, true⟩
          [("k", (⟨5, 10⟩ : RateLimitState))] "k" 11).2 "k"
      = some ⟨0, 60011⟩ ∧
    (⟨5, 10⟩ : RateLimitState) ≠ ⟨0, 60011⟩ := by decide

/-- C10 amended: `RateLimiter.isAllowed` never inserts or removes
entries and never touches any other key — in particular `getState`
stays `undefined` for a key never written by `execute`'s
failure-recording path — but when the checked key holds a state whose
window has expired (`now > resetTime`), the check resets that state
in place to `{count: 0, resetTime: now + timeWindow}`, which a later
`getState` observes; when the window has not expired the map is
unchanged. -/
theorem rateLimiter_isAllowed_frame_effect (opts : RateLimitOptions)
    (m : RLMap) (key : String) (now : Int) :
    (mapLookup m key = none → (RateLimiter.isAllowed opts m key now).2 = m) ∧
    (∀ st, mapLookup m key = some st → ¬(now > st.resetTime) →
      (RateLimiter.isAllowed opts m key now).2 = m) ∧
    (∀ st, mapLookup m key = some st → now > st.resetTime →
      (RateLimiter.isAllowed opts m key now).2
        = mapInsert m key ⟨0, now + opts.timeWindow⟩) ∧
    (∀ k', k' ≠ key →
      RateLimiter.getState (RateLimiter.isAllowed opts m key now).2 k'
        = RateLimiter.getState m k') := by
  refine ⟨?_, ?_, ?_, ?_⟩
  · intro h
    unfold RateLimiter.isAllowed
    simp [h]
  · intro st h hw
    unfold RateLimiter.isAllowed
    simp [h, hw]
  · intro st h hw
    unfold RateLimiter.isAllowed
    simp [h, hw]
  · intro k' hk
    unfold RateLimiter.getState RateLimiter.isAllowed
    cases h : mapLookup m key with
    | none => simp [h]
    | some st =>
        by_cases hw : now > st.resetTime
        · simp [h, hw, mapLookup_mapInsert_ne m key k' _ hk]
        · simp [h, hw]

/-- C10 amended witness: concrete instances of the frame conditions —
a missing key stays missing, an unexpired state is untouched, an
expired state is reset in place, and an unrelated key is
unaffected. -/
theorem rateLimiter_isAllowed_frame_effect_witness :
    (RateLimiter.isAllowed ⟨100, 60000, true⟩ [] "k" 11).2 = [] ∧
    (RateLimiter.isAllowed ⟨100, 60000, true⟩
        [("k", (⟨5, 10⟩ : RateLimitState))] "k" 10).2
      = [("k", (⟨5, 10⟩ : RateLimitState))] ∧
    (RateLimiter.isAllowed ⟨100, 60000, true⟩
        [("k", (⟨5, 10⟩ : RateLimitState))] "k" 11).2
      = mapInsert [("k", (⟨5, 10⟩ : RateLimitState))] "k" ⟨0, 11 + 60000⟩ ∧
    RateLimiter.getState
        (RateLimiter.isAllowed ⟨100, 60000, true⟩
          [("k", (⟨5, 10⟩ : RateLimitState))] "k" 11).2 "j"
      = RateLimiter.getState [("k", (⟨5, 10⟩ : RateLimitState))] "j" :=
  ⟨(rateLimiter_isAllowed_frame_effect ⟨100, 60000, true⟩ [] "k" 11).1 (by decide),
   (rateLimiter_isAllowed_frame_effect ⟨100, 60000, true⟩
      [("k", ⟨5, 10⟩)] "k" 10).2.1 ⟨5, 10⟩ (by decide) (by decide),
   (rateLimiter_isAllowed_frame_effect ⟨100, 60000, true⟩
      [("k", ⟨5, 10⟩)] "k" 11).2.2.1 ⟨5, 10⟩ (by decide) (by decide),
   (rateLimiter_isAllowed_frame_effect ⟨100, 60000, true⟩
      [("k", ⟨5, 10⟩)] "k" 11).2.2.2 "j" (by decide)⟩

/-- C3: when a key's circuit is open with `lastFailureAt = t` and
`now − t ≤ timeoutMs`, `CircuitBreaker.execute` rejects immediately
with a service-unavailable signal carrying
`retryAfter = ceil((timeoutMs − elapsed)/1000)` seconds, leaves the
state map untouched, and does not invoke the operation. -/
theorem circuitBreaker_open_rejects (opts : CircuitBreakerOptions) (m : CBMap)
    (key : String) (now t : Int) (opSucceeds : Bool)
    (hOpen : (CircuitBreaker.getState m key).isOpen = true)
    (hLf : (CircuitBreaker.getState m key).lastFailureTime = some t)
    (hEl : now - t ≤ opts.timeoutMs) :
    CircuitBreaker.execute opts m key now opSucceeds
      = (.rejected (mathCeilDiv (opts.timeoutMs - (now - t)) 1000), m, false) := by
  unfold CircuitBreaker.execute
  have hcond : ¬(jsTruthy (some t) = true ∧ opts.timeoutMs < now - t) := by
    rintro ⟨ht, hgt⟩
    simp only [jsTruthy, decide_eq_true_eq] at ht
    omega
  simp [hOpen, hLf, hcond, orZero]

/-- C3 witness: a concrete open circuit (3 failures, last at t = 2)
checked at t = 3 with `timeoutMs = 10000` is rejected with
`retryAfter = ceil(9999/1000)` and an untouched map. -/
theorem circuitBreaker_open_rejects_witness :
    CircuitBreaker.execute ⟨10000, 3, 2⟩
        [("k", (⟨3, some 2, true, 0⟩ : CircuitState))] "k" 3 true
      = (.rejected (mathCeilDiv (10000 - (3 - 2)) 1000),
         [("k", (⟨3, some 2, true, 0⟩ : CircuitState))], false) :=
  circuitBreaker_open_rejects ⟨10000, 3, 2⟩
    [("k", ⟨3, some 2, true, 0⟩)] "k" 3 2 true (by decide) (by decide) (by decide)

/-- C4: with `failureThreshold = 3` (and `successThreshold = 2`),
three consecutive failures at t = 0, 1, 2 leave the circuit open, so
a 4th call at t = 3 (before the 10000 ms timeout) fails fast with a
service-unavailable signal carrying the positive retry-after 10 s and
does not invoke the operation; the next call at t = 10003 (past the
timeout since the last failure) is allowed through to the operation;
and 2 consecutive successes reset the key's state to
`{failures: 0, successes: 0, lastFailureAt: null, isOpen: false}`. -/
theorem circuitBreaker_opens_and_recovers :
    (CircuitBreaker.run ⟨10000, 3, 2⟩ [] "k"
        [(0, false), (1, false), (2, false), (3, true),
         (10003, true), (10004, true)]).1
      = [(.failed, true), (.failed, true), (.failed, true),
         (.rejected 10, false), (.succeeded, true), (.succeeded, true)] ∧
    (0 : Int) < 10 ∧
    (CircuitBreaker.run ⟨10000, 3, 2⟩ [] "k"
        [(0, false), (1, false), (2, false), (3, true),
         (10003, true), (10004, true)]).2
      = [("k", ⟨0, none, false, 0⟩)] := by decide

/-- C1 counterexample: a fetch attempt answered with status 429
fails with a *network* signal carrying the status — not with the
*rate-limited* signal the claim requires. -/
theorem contentFetcher_429_is_network_not_rate_limited :
    ContentFetcher.attemptResult
        ((.response false 429 "body" (some 7)) : AttemptEvent String)
      = .error (.network (some 429)) ∧
    isRateLimitedError
        (ContentFetcher.attemptResult
          ((.response false 429 "body" (some 7)) : AttemptEvent String))
      = false := by decide

/-- C1 amended: `ContentFetcher.fetch` performs no status
classification — every non-OK response fails with a *network* signal
carrying the status, and a timed-out attempt propagates the raw abort
error rather than a *timeout* signal; the claimed classification
(429 → rate-limited with retry-after, ≥ 500 → network, other
4xx → validation, other non-OK → network, abort → timeout) is
implemented in `HttpClient.request`, which the fetch pipeline does
not use. -/
theorem contentFetcher_attempt_classification {C : Type} (status : Nat)
    (body : C) (ra : Option Int) :
    ContentFetcher.attemptResult (.response false status body ra)
      = .error (.network (some status)) ∧
    ContentFetcher.attemptResult (.aborted : AttemptEvent C)
      = .error .aborted ∧
    HttpClient.attemptResult (.response false 429 body ra)
      = .error (.rateLimited ra) ∧
    (500 ≤ status →
      HttpClient.attemptResult (.response false status body ra)
        = .error (.network (some status))) ∧
    (400 ≤ status → status < 500 → status ≠ 429 →
      HttpClient.attemptResult (.response false status body ra)
        = .error .validation) ∧
    (status < 400 →
      HttpClient.attemptResult (.response false status body ra)
        = .error (.network (some status))) ∧
    HttpClient.attemptResult (.aborted : AttemptEvent C) = .error .timeout := by
  refine ⟨rfl, rfl, ?_, ?_, ?_, ?_, rfl⟩
  · simp [HttpClient.attemptResult, HttpClient.classifyStatus]
  · intro h5
    have h429 : ¬(status = 429) := by omega
    simp [HttpClient.attemptResult, HttpClient.classifyStatus, h429, h5]
  · intro h4 h5 h429
    have h5' : ¬(500 ≤ status) := by omega
    simp [HttpClient.attemptResult, HttpClient.classifyStatus, h429, h5', h4]
  · intro h4
    have h429 : ¬(status = 429) := by omega
    have h5' : ¬(500 ≤ status) := by omega
    have h4' : ¬(400 ≤ status) := by omega
    simp [HttpClient.attemptResult, HttpClient.classifyStatus, h429, h5', h4']

/-- C1 amended witness: the classification evaluated at statuses 503,
404 and 302. -/
theorem contentFetcher_attempt_classification_witness :
    ((500 : Nat) ≤ 503 ∧
      HttpClient.attemptResult ((.response false 503 "b" none) : AttemptEvent String)
        = .error (.network (some 503))) ∧
    ((400 : Nat) ≤ 404 ∧ (404 : Nat) < 500 ∧ (404 : Nat) ≠ 429 ∧
      HttpClient.attemptResult ((.response false 404 "b" none) : AttemptEvent String)
        = .error .validation) ∧
    ((302 : Nat) < 400 ∧
      HttpClient.attemptResult ((.response false 302 "b" none) : AttemptEvent String)
        = .error (.network (some 302))) ∧
    ContentFetcher.attemptResult ((.response false 503 "b" none) : AttemptEvent String)
      = .error (.network (some 503)) :=
  ⟨⟨by decide,
    (contentFetcher_attempt_classification 503 "b" none).2.2.2.1 (by decide)⟩,
   ⟨by decide, by decide, by decide,
    (contentFetcher_attempt_classification 404 "b" none).2.2.2.2.1
      (by decide) (by decide) (by decide)⟩,
   ⟨by decide,
    (contentFetcher_attempt_classification 302 "b" none).2.2.2.2.2.1 (by decide)⟩,
   (contentFetcher_attempt_classification 503 "b" none).1⟩

/-! ## Cache lemmas -/

theorem cache_cas_store {T : Type} (opts : CacheOptions)
    (serialize : T → String) (s : CacheStore T) (key : String) (v : T)
    (now : Int) :
    (Cache.compareAndSet opts serialize s key v now).2
      = Cache.set opts (Cache.get opts s key now).2 key v none now := by
  unfold Cache.compareAndSet
  cases hget : (Cache.get opts s key now).1 with
  | none => rfl
  | some p =>
      by_cases h : serialize p = serialize v
      · simp [hget, h]
      · simp [hget, h]

/-- C7: for every key `k`, value `v` and ttl `t > 0`, `set(k, v, t)`
followed immediately by `get(k)` returns `v`; once the clock passes
`now + t` with stale-while-revalidate disabled, `get(k)` returns
absent and deletes the expired entry.  (`keysNodup` is the JS `Map`
invariant that keys are unique.) -/
theorem cache_ttl {T : Type} (opts : CacheOptions) (s : CacheStore T)
    (key : String) (v : T) (t now now' : Int) (hnd : keysNodup s)
    (hswr : opts.staleWhileRevalidate = false) (ht : 0 < t)
    (hPast : now + t < now') :
    (Cache.get opts (Cache.set opts s key v (some t) now) key now).1 = some v ∧
    (Cache.get opts (Cache.set opts s key v (some t) now) key now').1 = none ∧
    mapLookup (Cache.get opts (Cache.set opts s key v (some t) now) key now').2
      key = none := by
  have hlk : mapLookup (Cache.set opts s key v (some t) now) key
      = some ⟨v, now + t, now, false⟩ := by
    unfold Cache.set
    simpa using mapLookup_mapInsert_self s key _
  refine ⟨?_, ?_, ?_⟩
  · unfold Cache.get
    rw [hlk]
    have hne : ¬(now + t ≤ now) := by omega
    simp [hne]
  · unfold Cache.get
    rw [hlk]
    have hle : now + t ≤ now' := by omega
    simp [hle, hswr]
  · unfold Cache.get
    rw [hlk]
    have hle : now + t ≤ now' := by omega
    simp only [hle, if_pos, hswr, Bool.not_false, Bool.true_or, if_true]
    exact mapLookup_mapErase_self _ key (keysNodup_mapInsert s key _ hnd)

/-- C7 witness: `set("k", "v", 50)` at t = 100 on an empty store,
read back at t = 100 and at t = 151. -/
theorem cache_ttl_witness :
    (Cache.get ⟨300000, 100, false⟩
        (Cache.set ⟨300000, 100, false⟩ [] "k" "v" (some 50) 100) "k" 100).1
      = some "v" ∧
    (Cache.get ⟨300000, 100, false⟩
        (Cache.set ⟨300000, 100, false⟩ [] "k" "v" (some 50) 100) "k" 151).1
      = none ∧
    mapLookup
        (Cache.get ⟨300000, 100, false⟩
          (Cache.set ⟨300000, 100, false⟩ [] "k" "v" (some 50) 100) "k" 151).2
        "k" = none :=
  cache_ttl ⟨300000, 100, false⟩ [] "k" "v" 50 100 151
    (by simp [keysNodup]) (by decide) (by decide) (by decide)

/-- C8: `compareAndSet(key, v)` always writes `v` (with the default
ttl) and classifies the read-back value: absent → `initial`,
serialized-equal → `unchanged`, otherwise → `changed`; consequently,
starting from an empty store, a first call returns `initial`, an
immediate repeat with the identical value returns `unchanged`, and a
call with a differing value returns `changed`. -/
theorem cache_compareAndSet_spec {T : Type} (opts : CacheOptions)
    (serialize : T → String) (s : CacheStore T) (key : String) (v : T)
    (now : Int) :
    ((Cache.get opts s key now).1 = none →
      (Cache.compareAndSet opts serialize s key v now).1 = .initial) ∧
    (∀ p, (Cache.get opts s key now).1 = some p →
      (serialize p = serialize v →
        (Cache.compareAndSet opts serialize s key v now).1 = .unchanged) ∧
      (serialize p ≠ serialize v →
        (Cache.compareAndSet opts serialize s key v now).1 = .changed)) ∧
    mapLookup (Cache.compareAndSet opts serialize s key v now).2 key
      = some ⟨v, now + opts.ttl, now, false⟩ ∧
    (0 < opts.ttl →
      (Cache.compareAndSet opts serialize [] key v now).1 = .initial ∧
      (Cache.compareAndSet opts serialize
          (Cache.compareAndSet opts serialize [] key v now).2 key v now).1
        = .unchanged ∧
      (∀ w, serialize w ≠ serialize v →
        (Cache.compareAndSet opts serialize
            (Cache.compareAndSet opts serialize
              (Cache.compareAndSet opts serialize [] key v now).2 key v
              now).2 key w now).1 = .changed)) := by
  refine ⟨?_, ?_, ?_, ?_⟩
  · intro h
    simp only [Cache.compareAndSet]
    rw [h]
  · intro p hp
    constructor
    · intro he
      simp only [Cache.compareAndSet]
      rw [hp]
      simp [he]
    · intro hne
      simp only [Cache.compareAndSet]
      rw [hp]
      simp [hne]
  · rw [cache_cas_store]
    unfold Cache.set
    simpa using mapLookup_mapInsert_self (Cache.get opts s key now).2 key _
  · intro httl
    have hs1 : (Cache.compareAndSet opts serialize [] key v now).2
        = [(key, ⟨v, now + opts.ttl, now, false⟩)] := by
      rw [cache_cas_store]
      rfl
    have hget1 : (Cache.get opts [(key, ⟨v, now + opts.ttl, now, false⟩)] key
        now).1 = some v := by
      unfold Cache.get
      have hlk : mapLookup [(key, (⟨v, now + opts.ttl, now, false⟩ :
          CacheItem T))] key = some ⟨v, now + opts.ttl, now, false⟩ := by
        simp [mapLookup]
      rw [hlk]
      have hne : ¬(now + opts.ttl ≤ now) := by omega
      simp [hne]
    have hs2 : (Cache.compareAndSet opts serialize
        [(key, (⟨v, now + opts.ttl, now, false⟩ : CacheItem T))] key v now).2
        = [(key, ⟨v, now + opts.ttl, now, false⟩)] := by
      rw [cache_cas_store]
      unfold Cache.get Cache.set
      have hlk : mapLookup [(key, (⟨v, now + opts.ttl, now, false⟩ :
          CacheItem T))] key = some ⟨v, now + opts.ttl, now, false⟩ := by
        simp [mapLookup]
      rw [hlk]
      have hne : ¬(now + opts.ttl ≤ now) := by omega
      simp [hne, mapInsert]
    refine ⟨?_, ?_, ?_⟩
    · unfold Cache.compareAndSet
      have : (Cache.get opts ([] : CacheStore T) key now).1 = none := rfl
      rw [this]
    · rw [hs1]
      simp only [Cache.compareAndSet]
      rw [hget1]
      simp
    · intro w hw
      rw [hs1, hs2]
      simp only [Cache.compareAndSet]
      have hget1' : (Cache.get opts [(key, ⟨v, now + opts.ttl, now, false⟩)]
          key now).1 = some v := hget1
      rw [hget1']
      have : ¬(serialize v = serialize w) := fun h => hw (Eq.symm h)
      simp [this]

/-- C8 witness: the three-call sequence on an empty store with the
default options and identity serialization. -/
theorem cache_compareAndSet_spec_witness :
    (Cache.compareAndSet ⟨300000, 100, false⟩ id [] "k" "v" 0).1 = .initial ∧
    (Cache.compareAndSet ⟨300000, 100, false⟩ id
        (Cache.compareAndSet ⟨300000, 100, false⟩ id [] "k" "v" 0).2
        "k" "v" 0).1 = .unchanged ∧
    (Cache.compareAndSet ⟨300000, 100, false⟩ id
        (Cache.compareAndSet ⟨300000, 100, false⟩ id
          (Cache.compareAndSet ⟨300000, 100, false⟩ id [] "k" "v" 0).2
          "k" "v" 0).2 "k" "w" 0).1 = .changed :=
  have h := (cache_compareAndSet_spec ⟨300000, 100, false⟩ id [] "k" "v"
    0).2.2.2 (by decide)
  ⟨h.1, h.2.1, h.2.2 "w" (by decide)⟩

/-- C6: when a pending entry exists, `execute` returns its shared
promise without starting the operation and without touching the map;
on settlement the pending entry is removed (before the result
propagates) and the shared promise carries the settled result; hence
two overlapping calls for the same key start the operation exactly
once, both observe the identical settled result, and a call after
settlement starts a fresh execution. -/
theorem requestDeduplicator_dedups {E T : Type} :
    (∀ (m : DedupMap) (key : String) (now : Int) (fresh : Nat)
        (p : PendingRequest), mapLookup m key = some p →
        RequestDeduplicator.enter m key now fresh = (.shared p.promiseId, m)) ∧
    (∀ (m : DedupMap) (key : String) (pid : Nat) (r : Except E T)
        (ps : Nat → Option (Except E T)), keysNodup m →
        mapLookup (RequestDeduplicator.settle m key pid r ps).1 key = none ∧
        (RequestDeduplicator.settle m key pid r ps).2.1 pid = some r ∧
        (RequestDeduplicator.settle m key pid r ps).2.2 = r) ∧
    (∀ (tA tB : Int) (r : Except E T),
        (RequestDeduplicator.overlapScenario tA tB r).invocations = 1 ∧
        (RequestDeduplicator.overlapScenario tA tB r).resultA = r ∧
        (RequestDeduplicator.overlapScenario tA tB r).resultB = some r ∧
        (RequestDeduplicator.overlapScenario tA tB r).finalMap = [] ∧
        (RequestDeduplicator.overlapScenario tA tB r).thirdCall = .started 2) := by
  refine ⟨?_, ?_, ?_⟩
  · intro m key now fresh p hp
    unfold RequestDeduplicator.enter
    rw [hp]
  · intro m key pid r ps hnd
    exact ⟨mapLookup_mapErase_self m key hnd,
      by simp [RequestDeduplicator.settle], rfl⟩
  · intro tA tB r
    refine ⟨?_, ?_, ?_, ?_, ?_⟩ <;>
      simp [RequestDeduplicator.overlapScenario, RequestDeduplicator.enter,
        RequestDeduplicator.settle, mapLookup, mapInsert, mapErase]

/-- C6 witness: the shared-promise return, the settlement effects and
the overlap scenario evaluated at concrete inputs. -/
theorem requestDeduplicator_dedups_witness :
    RequestDeduplicator.enter [("k", (⟨0, 5⟩ : PendingRequest))] "k" 9 1
      = (.shared 0, [("k", (⟨0, 5⟩ : PendingRequest))]) ∧
    (mapLookup (RequestDeduplicator.settle (E := String) (T := Nat)
        [("k", (⟨0, 5⟩ : PendingRequest))] "k" 0 (.ok 42)
        (fun _ => none)).1 "k" = none ∧
      (RequestDeduplicator.settle (E := String) (T := Nat)
        [("k", (⟨0, 5⟩ : PendingRequest))] "k" 0 (.ok 42)
        (fun _ => none)).2.1 0 = some (.ok 42) ∧
      (RequestDeduplicator.settle (E := String) (T := Nat)
        [("k", (⟨0, 5⟩ : PendingRequest))] "k" 0 (.ok 42)
        (fun _ => none)).2.2 = .ok 42) ∧
    (RequestDeduplicator.overlapScenario (E := String) (T := Nat)
        0 1 (.ok 42)).invocations = 1 ∧
    (RequestDeduplicator.overlapScenario (E := String) (T := Nat)
        0 1 (.ok 42)).resultB = some (.ok 42) :=
  ⟨(requestDeduplicator_dedups (E := String) (T := Nat)).1
      [("k", ⟨0, 5⟩)] "k" 9 1 ⟨0, 5⟩ (by decide),
   (requestDeduplicator_dedups (E := String) (T := Nat)).2.1
      [("k", ⟨0, 5⟩)] "k" 0 (.ok 42) (fun _ => none) (by simp [keysNodup]),
   ((requestDeduplicator_dedups (E := String) (T := Nat)).2.2 0 1 (.ok 42)).1,
   ((requestDeduplicator_dedups (E := String) (T := Nat)).2.2 0 1 (.ok 42)).2.2.1⟩

/-! ## Retry lemmas -/

theorem retryLoop_invocations_le {E T : Type} (op : Nat → Except E T)
    (maxRetries : Nat) (base : ℚ) (jit : Nat → ℚ) :
    ∀ (fuel attempt : Nat) (lastE : Option E) (ws : List ℚ),
      (retryLoop op maxRetries base jit attempt fuel lastE ws).invocations
        ≤ attempt + fuel := by
  intro fuel
  induction fuel with
  | zero =>
      intro attempt lastE ws
      simp [retryLoop]
  | succ f ih =>
      intro attempt lastE ws
      unfold retryLoop
      cases op attempt with
      | ok t => simp
      | error e =>
          have h := ih (attempt + 1) (some e)
            (if attempt < maxRetries - 1
              then ws ++ [base * 2 ^ attempt * jit attempt] else ws)
          simp only []
          omega

theorem retryLoop_invocations_ge {E T : Type} (op : Nat → Except E T)
    (maxRetries : Nat) (base : ℚ) (jit : Nat → ℚ) :
    ∀ (fuel attempt : Nat) (lastE : Option E) (ws : List ℚ),
      attempt ≤ (retryLoop op maxRetries base jit attempt fuel lastE ws).invocations := by
  intro fuel
  induction fuel with
  | zero =>
      intro attempt lastE ws
      simp [retryLoop]
  | succ f ih =>
      intro attempt lastE ws
      unfold retryLoop
      cases op attempt with
      | ok t => simp
      | error e =>
          have h := ih (attempt + 1) (some e)
            (if attempt < maxRetries - 1
              then ws ++ [base * 2 ^ attempt * jit attempt] else ws)
          simp only []
          omega

theorem retryLoop_waits {E T : Type} (op : Nat → Except E T)
    (maxRetries : Nat) (base : ℚ) (jit : Nat → ℚ) :
    ∀ (fuel attempt : Nat) (lastE : Option E) (ws : List ℚ),
      attempt + fuel = maxRetries →
      (retryLoop op maxRetries base jit attempt fuel lastE ws).waits
        = ws ++ (List.range' attempt
            ((retryLoop op maxRetries base jit attempt fuel lastE ws).invocations
              - 1 - attempt)).map (fun i => base * 2 ^ i * jit i) := by
  intro fuel
  induction fuel with
  | zero =>
      intro attempt lastE ws _
      simp [retryLoop]
  | succ f ih =>
      intro attempt lastE ws hinv
      unfold retryLoop
      cases hop : op attempt with
      | ok t => simp
      | error e =>
          simp only []
          by_cases hlt : attempt < maxRetries - 1
          · rw [if_pos hlt]
            have hf : 1 ≤ f := by omega
            have h' : (attempt + 1) + f = maxRetries := by omega
            rw [ih (attempt + 1) (some e)
              (ws ++ [base * 2 ^ attempt * jit attempt]) h']
            have hge : attempt + 2 ≤
                (retryLoop op maxRetries base jit (attempt + 1) f (some e)
                  (ws ++ [base * 2 ^ attempt * jit attempt])).invocations := by
              obtain ⟨f', rfl⟩ : ∃ f', f = f' + 1 :=
                ⟨f - 1, by omega⟩
              unfold retryLoop
              cases op (attempt + 1) with
              | ok t => simp
              | error e' =>
                  have := retryLoop_invocations_ge op maxRetries base jit f'
                    (attempt + 1 + 1) (some e')
                    (if attempt + 1 < maxRetries - 1
                      then (ws ++ [base * 2 ^ attempt * jit attempt])
                        ++ [base * 2 ^ (attempt + 1) * jit (attempt + 1)]
                      else ws ++ [base * 2 ^ attempt * jit attempt])
                  simp only []
                  omega
            rw [List.append_assoc]
            congr 1
            have hn : (retryLoop op maxRetries base jit (attempt + 1) f (some e)
                  (ws ++ [base * 2 ^ attempt * jit attempt])).invocations
                  - 1 - attempt
                = ((retryLoop op maxRetries base jit (attempt + 1) f (some e)
                  (ws ++ [base * 2 ^ attempt * jit attempt])).invocations
                  - 1 - (attempt + 1)) + 1 := by omega
            rw [hn, List.range'_succ, List.map_cons]
            rfl
          · rw [if_neg hlt]
            have hf : f = 0 := by omega
            subst hf
            simp [retryLoop]

/-- C5: `retryOperation` invokes the operation at most `maxRetries`
times; the waits performed between consecutive attempts (none after
the last) are exactly `baseDelayMs * 2^attempt * jitter(attempt)`
with the jitter factor in `[1.0, 11/10)`; and an operation failing on
every attempt with `maxRetries = 3` is invoked exactly 3 times and
fails with an *operation-exhausted* signal wrapping the last error
and carrying `{maxRetries, baseDelayMs, lastError}`. -/
theorem retryOperation_spec {E T : Type} (op : Nat → Except E T)
    (maxRetries : Nat) (baseDelayMs : ℚ) (random : Nat → ℚ)
    (hr : ∀ i, 0 ≤ random i ∧ random i < 1) :
    (retryOperation op maxRetries baseDelayMs (jitterOf random)).invocations
      ≤ maxRetries ∧
    (retryOperation op maxRetries baseDelayMs (jitterOf random)).waits
      = (List.range
          ((retryOperation op maxRetries baseDelayMs
            (jitterOf random)).invocations - 1)).map
          (fun i => baseDelayMs * 2 ^ i * jitterOf random i) ∧
    (∀ i, 1 ≤ jitterOf random i ∧ jitterOf random i < 11 / 10) ∧
    ((∀ i, ∃ e, op i = .error e) → maxRetries = 3 →
      (retryOperation op maxRetries baseDelayMs
          (jitterOf random)).invocations = 3 ∧
      ∃ e2, op 2 = .error e2 ∧
        (retryOperation op maxRetries baseDelayMs (jitterOf random)).result
          = .error ⟨3, baseDelayMs, some e2⟩) := by
  refine ⟨?_, ?_, ?_, ?_⟩
  · have := retryLoop_invocations_le op maxRetries baseDelayMs
      (jitterOf random) maxRetries 0 none []
    simpa [retryOperation] using this
  · have := retryLoop_waits op maxRetries baseDelayMs (jitterOf random)
      maxRetries 0 none [] (by omega)
    unfold retryOperation
    rw [this]
    rw [List.range_eq_range']
    simp
  · intro i
    have h0 := (hr i).1
    have h1 := (hr i).2
    unfold jitterOf
    constructor
    · nlinarith
    · nlinarith
  · intro hfail h3
    subst h3
    obtain ⟨e0, h0⟩ := hfail 0
    obtain ⟨e1, h1⟩ := hfail 1
    obtain ⟨e2, h2⟩ := hfail 2
    refine ⟨?_, e2, h2, ?_⟩
    · simp [retryOperation, retryLoop, h0, h1, h2]
    · simp [retryOperation, retryLoop, h0, h1, h2]

/-- C5 witness: an always-failing operation run with `maxRetries = 3`,
`baseDelayMs = 1000` and zero random draws. -/
theorem retryOperation_spec_witness :
    (retryOperation (fun i => (Except.error i : Except Nat Nat)) 3 1000
        (jitterOf (fun _ => 0))).invocations ≤ 3 ∧
    (retryOperation (fun i => (Except.error i : Except Nat Nat)) 3 1000
        (jitterOf (fun _ => 0))).waits
      = (List.range
          ((retryOperation (fun i => (Except.error i : Except Nat Nat)) 3 1000
            (jitterOf (fun _ => 0))).invocations - 1)).map
          (fun i => 1000 * 2 ^ i * jitterOf (fun _ => 0) i) ∧
    (∀ i, 1 ≤ jitterOf (fun _ => 0) i ∧ jitterOf (fun _ => 0) i < 11 / 10) ∧
    ((∀ i, ∃ e, (Except.error i : Except Nat Nat) = .error e) → 3 = 3 →
      (retryOperation (fun i => (Except.error i : Except Nat Nat)) 3 1000
          (jitterOf (fun _ => 0))).invocations = 3 ∧
      ∃ e2, (Except.error 2 : Except Nat Nat) = .error e2 ∧
        (retryOperation (fun i => (Except.error i : Except Nat Nat)) 3 1000
            (jitterOf (fun _ => 0))).result
          = .error ⟨3, 1000, some e2⟩) :=
  retryOperation_spec (fun i => (Except.error i : Except Nat Nat)) 3 1000
    (fun _ => 0) (fun _ => ⟨le_refl 0, zero_lt_one⟩)

/-! ## Cache cleanup lemmas -/

theorem evictLoop_subset {T : Type} (n : Nat) :
    ∀ (entries : List (String × CacheItem T)) (store : CacheStore T),
      ∀ x ∈ Cache.evictLoop store entries n, x ∈ store := by
  intro entries
  induction entries with
  | nil =>
      intro store x hx
      simpa [Cache.evictLoop] using hx
  | cons hd rest ih =>
      intro store x hx
      unfold Cache.evictLoop at hx
      by_cases hl : store.length > n
      · rw [if_pos hl] at hx
        exact mapErase_subset store hd.1 x (ih (mapErase store hd.1) x hx)
      · rw [if_neg hl] at hx
        exact hx

theorem evictLoop_length {T : Type} (n : Nat) :
    ∀ (entries : List (String × CacheItem T)) (store : CacheStore T),
      keysNodup entries → (∀ e ∈ entries, e ∈ store) →
      store.length - entries.length ≤ n →
      (Cache.evictLoop store entries n).length ≤ n := by
  intro entries
  induction entries with
  | nil =>
      intro store _ _ hbound
      simp only [List.length_nil, Nat.sub_zero] at hbound
      simpa [Cache.evictLoop] using hbound
  | cons hd rest ih =>
      intro store hnd hmem hbound
      unfold Cache.evictLoop
      by_cases hl : store.length > n
      · rw [if_pos hl]
        have hin : (hd.1, hd.2) ∈ store := by
          simpa using hmem hd (List.mem_cons_self hd rest)
        have hlen : (mapErase store hd.1).length = store.length - 1 :=
          mapErase_length_of_mem store hd.1 hd.2 hin
        have hndE : keysNodup rest := by
          unfold keysNodup at hnd ⊢
          exact (List.nodup_cons.1 hnd).2
        have hhd : hd.1 ∉ rest.map Prod.fst := by
          unfold keysNodup at hnd
          exact (List.nodup_cons.1 hnd).1
        have hmem' : ∀ e ∈ rest, e ∈ mapErase store hd.1 := by
          intro e he
          refine mem_mapErase_of_ne store hd.1 e
            (hmem e (List.mem_cons_of_mem hd he)) ?_
          intro hek
          exact hhd (hek ▸ List.mem_map_of_mem Prod.fst he)
        refine ih (mapErase store hd.1) hndE hmem' ?_
        rw [hlen]
        simp only [List.length_cons] at hbound
        omega
      · rw [if_neg hl]
        omega

theorem evictLoop_evicted_le {T : Type} (n : Nat) :
    ∀ (entries : List (String × CacheItem T)) (store : CacheStore T),
      keysNodup store → keysNodup entries →
      (∀ z ∈ store, z ∈ entries) →
      List.Sorted Cache.byLastAccess entries →
      ∀ x ∈ store, x ∉ Cache.evictLoop store entries n →
      ∀ y ∈ Cache.evictLoop store entries n,
        x.2.lastAccess ≤ y.2.lastAccess := by
  intro entries
  induction entries with
  | nil =>
      intro store _ _ _ _ x hx hnx y _
      exact absurd (by simpa [Cache.evictLoop] using hx) hnx
  | cons hd rest ih =>
      intro store hndS hndE hsub hsort x hx hnx y hy
      unfold Cache.evictLoop at hnx hy
      by_cases hl : store.length > n
      · rw [if_pos hl] at hnx hy
        have hndS' : keysNodup (mapErase store hd.1) :=
          keysNodup_mapErase store hd.1 hndS
        have hndE' : keysNodup rest := by
          unfold keysNodup at hndE ⊢
          exact (List.nodup_cons.1 hndE).2
        have hhd : hd.1 ∉ rest.map Prod.fst := by
          unfold keysNodup at hndE
          exact (List.nodup_cons.1 hndE).1
        have hsub' : ∀ z ∈ mapErase store hd.1, z ∈ rest := by
          intro z hz
          have hzs : z ∈ store := mapErase_subset store hd.1 z hz
          rcases List.mem_cons.1 (hsub z hzs) with hzh | hzr
          · exfalso
            rw [hzh] at hz hzs
            exact (not_mem_mapErase_self store hd.1 hd hndS hzs rfl) hz
          · exact hzr
        have hsort' : List.Sorted Cache.byLastAccess rest :=
          (List.sorted_cons.1 hsort).2
        by_cases hxs : x ∈ mapErase store hd.1
        · exact ih (mapErase store hd.1) hndS' hndE' hsub' hsort' x hxs hnx y hy
        · have hxk : x.1 = hd.1 :=
            key_eq_of_not_mem_mapErase store hd.1 x hx hxs
          have hxhd : x = hd := by
            rcases List.mem_cons.1 (hsub x hx) with h' | h'
            · exact h'
            · exact absurd (hxk ▸ List.mem_map_of_mem Prod.fst h') hhd
          have hyr : y ∈ rest :=
            hsub' y (evictLoop_subset n rest (mapErase store hd.1) y hy)
          have := (List.sorted_cons.1 hsort).1 y hyr
          rw [hxhd]
          exact this
      · rw [if_neg hl] at hnx
        exact absurd hx hnx

/-- C9: a `cleanup` pass keeps only unexpired entries
(`now < expiresAt`), removes nothing that was not in the store,
leaves the store untouched beyond expiry removal when it is within
capacity, evicts only least-recently-accessed entries first (every
evicted unexpired entry has `lastAccess` at most that of every
survivor), and always ends with at most `maxSize` entries. -/
theorem cache_cleanup_spec {T : Type} (opts : CacheOptions) (s : CacheStore T)
    (now : Int) (hnd : keysNodup s) :
    (∀ kv ∈ Cache.cleanup opts s now, now < kv.2.expiresAt) ∧
    (∀ kv ∈ Cache.cleanup opts s now, kv ∈ s) ∧
    ((s.filter (fun kv => ! decide (kv.2.expiresAt ≤ now))).length
        ≤ opts.maxSize →
      Cache.cleanup opts s now
        = s.filter (fun kv => ! decide (kv.2.expiresAt ≤ now))) ∧
    (∀ x ∈ s.filter (fun kv => ! decide (kv.2.expiresAt ≤ now)),
      x ∉ Cache.cleanup opts s now →
      ∀ y ∈ Cache.cleanup opts s now, x.2.lastAccess ≤ y.2.lastAccess) ∧
    (Cache.cleanup opts s now).length ≤ opts.maxSize := by
  have hndS1 : keysNodup (s.filter
      (fun kv => ! decide (kv.2.expiresAt ≤ now))) := by
    unfold keysNodup at hnd ⊢
    exact ((List.filter_sublist s).map Prod.fst).nodup hnd
  have hperm := List.perm_insertionSort (Cache.byLastAccess (T := T))
    (s.filter (fun kv => ! decide (kv.2.expiresAt ≤ now)))
  have hndE : keysNodup ((s.filter
      (fun kv => ! decide (kv.2.expiresAt ≤ now))).insertionSort
        Cache.byLastAccess) := by
    unfold keysNodup at hndS1 ⊢
    exact ((hperm.map Prod.fst).nodup_iff).2 hndS1
  have hsub : ∀ z ∈ s.filter (fun kv => ! decide (kv.2.expiresAt ≤ now)),
      z ∈ (s.filter (fun kv => ! decide (kv.2.expiresAt ≤ now))).insertionSort
        Cache.byLastAccess := by
    intro z hz
    exact hperm.mem_iff.2 hz
  have hsort := List.sorted_insertionSort (Cache.byLastAccess (T := T))
    (s.filter (fun kv => ! decide (kv.2.expiresAt ≤ now)))
  have hres : ∀ kv ∈ Cache.cleanup opts s now,
      kv ∈ s.filter (fun kv => ! decide (kv.2.expiresAt ≤ now)) := by
    intro kv hkv
    unfold Cache.cleanup at hkv
    by_cases hl : (s.filter (fun kv => ! decide (kv.2.expiresAt ≤ now))).length
        > opts.maxSize
    · rw [if_pos hl] at hkv
      exact evictLoop_subset opts.maxSize _ _ kv hkv
    · rw [if_neg hl] at hkv
      exact hkv
  refine ⟨?_, ?_, ?_, ?_, ?_⟩
  · intro kv hkv
    have := List.of_mem_filter (hres kv hkv)
    simp only [Bool.not_eq_true', decide_eq_false_iff_not, Int.not_le] at this
    exact this
  · intro kv hkv
    exact List.mem_of_mem_filter (hres kv hkv)
  · intro hle
    unfold Cache.cleanup
    rw [if_neg (by omega)]
  · intro x hx hnx y hy
    unfold Cache.cleanup at hnx hy
    by_cases hl : (s.filter (fun kv => ! decide (kv.2.expiresAt ≤ now))).length
        > opts.maxSize
    · rw [if_pos hl] at hnx hy
      exact evictLoop_evicted_le opts.maxSize _ _ hndS1 hndE hsub hsort
        x hx hnx y hy
    · rw [if_neg hl] at hnx
      exact absurd hx hnx
  · unfold Cache.cleanup
    by_cases hl : (s.filter (fun kv => ! decide (kv.2.expiresAt ≤ now))).length
        > opts.maxSize
    · rw [if_pos hl]
      refine evictLoop_length opts.maxSize _ _ hndE ?_ ?_
      · intro e he
        exact hperm.mem_iff.1 he
      · rw [hperm.length_eq]
        omega
    · rw [if_neg hl]
      omega

/-- C9 witness: a cleanup pass at t = 10 over a three-entry store
with `maxSize = 1`: the expired entry and the least-recently-accessed
unexpired entry are removed. -/
theorem cache_cleanup_spec_witness :
    (∀ kv ∈ Cache.cleanup ⟨300000, 1, false⟩
        [("a", (⟨"x", 10, 5, false⟩ : CacheItem String)),
         ("b", ⟨"y", 100, 7, false⟩), ("c", ⟨"z", 100, 3, false⟩)] 10,
      (10 : Int) < kv.2.expiresAt) ∧
    (Cache.cleanup ⟨300000, 1, false⟩
        [("a", (⟨"x", 10, 5, false⟩ : CacheItem String)),
         ("b", ⟨"y", 100, 7, false⟩), ("c", ⟨"z", 100, 3, false⟩)] 10).length
      ≤ 1 :=
  have h := cache_cleanup_spec ⟨300000, 1, false⟩
    [("a", (⟨"x", 10, 5, false⟩ : CacheItem String)),
     ("b", ⟨"y", 100, 7, false⟩), ("c", ⟨"z", 100, 3, false⟩)] 10
    (by simp [keysNodup])
  ⟨h.1, h.2.2.2.2⟩

end FormWatcher
